import Mathlib

/-!
Verification of the Sea Battle core (Ship, Board, Player/CPU AI, turn
handling) against its design description. The JavaScript classes are
embedded as pure Lean functions: object mutation becomes explicit state
passing, the global random number generator becomes an explicit stream of
draws, and a thrown exception becomes an Option or Except failure.
-/

namespace SeaBattle

/-- Two-character coordinate string built from row and column numbers,
the Lean counterpart of the template literal the JavaScript code uses to
build coordinates (for example row 3, column 4 gives "34"). -/
def coordStr (row col : Nat) : String :=
  toString row ++ toString col

/-- Numeric value of a decimal digit character, none otherwise. This
models JavaScript parseInt on a single character; the NaN result on a
non-digit character is folded into none. -/
def charDigit? (ch : Char) : Option Nat :=
  if ch.isDigit then some (ch.toNat - 48) else none

/-- Board.parseCoordinate: a coordinate string parses only when it has
exactly two characters (otherwise the source throws, modelled as none);
each character is read as a decimal digit. -/
def parseCoordinate (coordinate : String) : Option (Nat × Nat) :=
  match coordinate.toList with
  | [c0, c1] =>
    match charDigit? c0, charDigit? c1 with
    | some row, some col => some (row, col)
    | _, _ => none
  | _ => none

/-- Ship entity: the coordinate strings it occupies and one hit flag per
coordinate. The source constructor performs no validation of the location
list. -/
structure Ship where
  locations : List String
  hits : List Bool
deriving Repr, DecidableEq

/-- Ship constructor: copies the locations and creates the all-false hit
flag array of the same length. -/
def Ship.make (locations : List String) : Ship :=
  { locations := locations, hits := List.replicate locations.length false }

/-- First index of a location in a list, scanning from the front, as
JavaScript indexOf (none models the -1 result). -/
def jsIndexOf : List String → String → Option Nat
  | [], _ => none
  | y :: ys, x => if y = x then some 0 else (jsIndexOf ys x).map (· + 1)

/-- Ship.hit: marks the first matching location's flag when that flag is
not yet set and reports whether a fresh hit happened; otherwise the ship
is unchanged. -/
def Ship.hitOp (s : Ship) (location : String) : Bool × Ship :=
  match jsIndexOf s.locations location with
  | some index =>
    if s.hits.getD index false then (false, s)
    else (true, { s with hits := s.hits.set index true })
  | none => (false, s)

/-- Ship.isSunk: every hit flag is true. -/
def Ship.isSunk (s : Ship) : Bool :=
  s.hits.all (fun h => h)

/-- Ship.occupies: membership test on the location list. -/
def Ship.occupies (s : Ship) (location : String) : Bool :=
  s.locations.contains location

/-- Grid cell read: '~' water, 'S' own ship, 'X' hit, 'O' miss. A read
outside the stored grid gives '?', a marker distinct from every cell
value, mirroring the JavaScript undefined, which compares unequal to
'~'. -/
def getCell (grid : List (List Char)) (row col : Nat) : Char :=
  (grid.getD row []).getD col '?'

/-- Grid cell write; a write outside the stored grid leaves it unchanged
(the source never writes out of range on the square grids it builds). -/
def setCell (grid : List (List Char)) (row col : Nat) (v : Char) : List (List Char) :=
  grid.set row ((grid.getD row []).set col v)

/-- Board state: size, grid, owned ships and the set of coordinates
already guessed against it (a JavaScript Set, modelled as a list that
acquires no duplicates because every insertion is guarded by a membership
test). -/
structure Board where
  size : Nat
  grid : List (List Char)
  ships : List Ship
  guesses : List String
deriving Repr, DecidableEq

/-- Board.createGrid: a size by size grid of water. -/
def createGrid (size : Nat) : List (List Char) :=
  List.replicate size (List.replicate size '~')

/-- Board constructor (the size defaults to 10 in the source). -/
def Board.init (size : Nat) : Board :=
  { size := size, grid := createGrid size, ships := [], guesses := [] }

/-- Board.isValidCoordinate on integer row and column; the adjacency
logic of the CPU player passes values that may be negative. -/
def Board.isValidCoordinate (b : Board) (row col : Int) : Bool :=
  decide (0 ≤ row) && decide (row < (b.size : Int)) &&
    decide (0 ≤ col) && decide (col < (b.size : Int))

/-- Board.hasBeenGuessed: membership in the guessed-set. -/
def Board.hasBeenGuessed (b : Board) (coordinate : String) : Bool :=
  b.guesses.contains coordinate

/-- Set.add on the guessed-set: storing a coordinate that is already
present changes nothing. -/
def Board.addGuess (b : Board) (coordinate : String) : Board :=
  if b.guesses.contains coordinate then b
  else { b with guesses := coordinate :: b.guesses }

/-- Result record of Board.processGuess. The source also attaches the hit
ship object to the record on a hit; no modelled caller reads that field. -/
structure GuessResult where
  hit : Bool
  sunk : Bool
  alreadyGuessed : Bool
deriving Repr, DecidableEq

/-- Ship-list scan of Board.processGuess: the first ship reporting a
fresh hit is updated and its sunk status is returned; the ships after it
are not examined. -/
def hitFirst : List Ship → String → Option (List Ship × Bool)
  | [], _ => none
  | s :: rest, coordinate =>
    match s.hitOp coordinate with
    | (true, s2) => some (s2 :: rest, s2.isSunk)
    | (false, _) =>
      match hitFirst rest coordinate with
      | some (rest2, sunkFlag) => some (s :: rest2, sunkFlag)
      | none => none

/-- Board.processGuess: an already guessed coordinate short-circuits with
alreadyGuessed set and no mutation; otherwise the coordinate is recorded,
parsed (none models the source throwing on a malformed coordinate), the
ships are scanned for a hit and the grid cell is marked 'X' or 'O'. -/
def Board.processGuess (b : Board) (coordinate : String) :
    Option (GuessResult × Board) :=
  if b.guesses.contains coordinate then
    some ({ hit := false, sunk := false, alreadyGuessed := true }, b)
  else
    let b1 : Board := { b with guesses := coordinate :: b.guesses }
    match parseCoordinate coordinate with
    | none => none
    | some (row, col) =>
      match hitFirst b1.ships coordinate with
      | some (ships2, sunkFlag) =>
        some ({ hit := true, sunk := sunkFlag, alreadyGuessed := false },
              { b1 with ships := ships2, grid := setCell b1.grid row col 'X' })
      | none =>
        some ({ hit := false, sunk := false, alreadyGuessed := false },
              { b1 with grid := setCell b1.grid row col 'O' })

/-- C1: resolving a guess at a coordinate already in the guessed-set
returns hit false, sunk false, alreadyGuessed true, and the board —
grid, guessed-set and every owned ship's hit flags — is returned exactly
as it was. -/
theorem processGuess_alreadyGuessed (b : Board) (coordinate : String)
    (h : coordinate ∈ b.guesses) :
    b.processGuess coordinate =
      some ({ hit := false, sunk := false, alreadyGuessed := true }, b) := by
  simp [Board.processGuess, h]

/-- Concrete board for the idempotent re-guess scenario: one ship at
"34" with "34" already guessed. -/
def reGuessBoard : Board :=
  { size := 10, grid := createGrid 10, ships := [Ship.make ["34"]],
    guesses := ["34"] }

/-- C1 witness: a concrete board that has already been guessed at "34"
resolves a repeated "34" with the alreadyGuessed result and no change. -/
theorem processGuess_alreadyGuessed_witness :
    ("34" : String) ∈ reGuessBoard.guesses ∧
    reGuessBoard.processGuess "34" =
      some ({ hit := false, sunk := false, alreadyGuessed := true },
        reGuessBoard) :=
  ⟨by decide, processGuess_alreadyGuessed reGuessBoard "34" (by decide)⟩

/-- Hitting a ship with a whole sequence of guesses in order: the fold of
Ship.hit over the sequence, keeping the final ship state. -/
def Ship.hitAll (s : Ship) (ls : List String) : Ship :=
  ls.foldl (fun s2 l => (s2.hitOp l).2) s

theorem jsIndexOf_lt_length {l : List String} {x : String} {j : Nat}
    (h : jsIndexOf l x = some j) : j < l.length := by
  induction l generalizing j with
  | nil => simp [jsIndexOf] at h
  | cons y ys ih =>
    unfold jsIndexOf at h
    by_cases hy : y = x
    · simp [hy] at h
      simp [← h]
    · simp [hy, Option.map_eq_some'] at h
      obtain ⟨j2, hj2, rfl⟩ := h
      have := ih hj2
      simp only [List.length_cons]
      omega

theorem jsIndexOf_getD {l : List String} {x : String} {j : Nat}
    (h : jsIndexOf l x = some j) : l.getD j "" = x := by
  induction l generalizing j with
  | nil => simp [jsIndexOf] at h
  | cons y ys ih =>
    unfold jsIndexOf at h
    by_cases hy : y = x
    · simp [hy] at h
      simp [← h, hy]
    · simp [hy, Option.map_eq_some'] at h
      obtain ⟨j2, hj2, rfl⟩ := h
      simpa using ih hj2

theorem jsIndexOf_nodup_getD {l : List String} (hn : l.Nodup) {i : Nat}
    (hi : i < l.length) : jsIndexOf l (l.getD i "") = some i := by
  induction l generalizing i with
  | nil => simp at hi
  | cons y ys ih =>
    rw [List.nodup_cons] at hn
    cases i with
    | zero => simp [jsIndexOf]
    | succ i2 =>
      have hi2 : i2 < ys.length := by simpa using hi
      have hyne : y ≠ ys.getD i2 "" := by
        intro hcontra
        exact hn.1 (by
          rw [hcontra, List.getD_eq_getElem ys "" hi2]
          exact List.getElem_mem hi2)
      unfold jsIndexOf
      simp only [List.getD_cons_succ]
      rw [if_neg hyne, ih hn.2 hi2]
      rfl

theorem hitOp_locations (s : Ship) (l : String) :
    (s.hitOp l).2.locations = s.locations := by
  unfold Ship.hitOp
  rcases jsIndexOf s.locations l with _ | j
  · rfl
  · by_cases h : s.hits[j]?.getD false = true <;> simp [h]

theorem hitOp_hits_length (s : Ship) (l : String) :
    (s.hitOp l).2.hits.length = s.hits.length := by
  unfold Ship.hitOp
  rcases jsIndexOf s.locations l with _ | j
  · rfl
  · by_cases h : s.hits[j]?.getD false = true <;> simp [h]

theorem hitOp_getD (s : Ship) (l : String)
    (hlen : s.hits.length = s.locations.length) (i : Nat) :
    (s.hitOp l).2.hits.getD i false =
      (s.hits.getD i false ||
        decide (jsIndexOf s.locations l = some i)) := by
  unfold Ship.hitOp
  rcases hj : jsIndexOf s.locations l with _ | j
  · simp
  · have hjlt : j < s.hits.length := hlen ▸ jsIndexOf_lt_length hj
    simp only [List.getD_eq_getElem?_getD]
    by_cases hhit : s.hits[j]?.getD false = true
    · by_cases hij : j = i
      · subst hij
        simp [hhit]
      · simp [hhit, hij]
    · by_cases hij : j = i
      · subst hij
        simp only [if_neg hhit]
        have hset : (s.hits.set j true)[j]? = some true :=
          List.getElem?_set_self (by simpa using hjlt)
        simp [hset]
      · simp only [if_neg hhit]
        have hset : (s.hits.set j true)[i]? = s.hits[i]? :=
          List.getElem?_set_ne hij
        simp [hset, hij]

theorem hitAll_locations (s : Ship) (ls : List String) :
    (s.hitAll ls).locations = s.locations := by
  induction ls generalizing s with
  | nil => rfl
  | cons l ls ih =>
    show ((s.hitOp l).2.hitAll ls).locations = s.locations
    rw [ih, hitOp_locations]

theorem hitAll_hits_length (s : Ship) (ls : List String) :
    (s.hitAll ls).hits.length = s.hits.length := by
  induction ls generalizing s with
  | nil => rfl
  | cons l ls ih =>
    show ((s.hitOp l).2.hitAll ls).hits.length = s.hits.length
    rw [ih, hitOp_hits_length]

theorem hitAll_getD (s : Ship) (ls : List String)
    (hlen : s.hits.length = s.locations.length) (i : Nat) :
    (s.hitAll ls).hits.getD i false =
      (s.hits.getD i false ||
        ls.any (fun l => decide (jsIndexOf s.locations l = some i))) := by
  induction ls generalizing s with
  | nil => simp [Ship.hitAll]
  | cons l ls ih =>
    have hlen2 : (s.hitOp l).2.hits.length = (s.hitOp l).2.locations.length := by
      rw [hitOp_hits_length, hitOp_locations, hlen]
    show ((s.hitOp l).2.hitAll ls).hits.getD i false = _
    rw [ih _ hlen2, hitOp_locations, hitOp_getD s l hlen i]
    simp [Bool.or_assoc]

theorem isSunk_iff_getD (s : Ship) :
    s.isSunk = true ↔ ∀ i < s.hits.length, s.hits.getD i false = true := by
  unfold Ship.isSunk
  rw [List.all_eq_true]
  constructor
  · intro h i hi
    rw [List.getD_eq_getElem _ _ hi]
    exact h _ (List.getElem_mem hi)
  · intro h x hx
    obtain ⟨n, hn, rfl⟩ := List.mem_iff_getElem.mp hx
    have := h n hn
    rwa [List.getD_eq_getElem _ _ hn] at this

/-- C7 counterexample: the Ship constructor performs no validation; an
empty coordinate sequence produces a ship (with no cells and no hit
flags, vacuously sunk) and a duplicate coordinate sequence also produces
a ship — no failure occurs in either case, where the claim requires that
no Ship be produced. The repository's own Ship tests expect exactly this
behaviour for the empty sequence. -/
theorem ship_make_accepts_invalid_shapes :
    Ship.make [] = { locations := [], hits := [] } ∧
    (Ship.make []).isSunk = true ∧
    Ship.make ["00", "00"] =
      { locations := ["00", "00"], hits := [false, false] } :=
  ⟨rfl, rfl, rfl⟩

/-- C7 amended: ship creation never fails. Every coordinate sequence,
including the empty one and sequences with duplicates, yields a ship
whose hit flags start all false; the empty ship is already sunk, and in
a duplicated sequence only the first copy of the coordinate can ever be
hit, so such a ship can never be sunk by any sequence of guesses. -/
theorem ship_make_no_validation (locs : List String) :
    (Ship.make locs).locations = locs ∧
    (Ship.make locs).hits.all (fun h => !h) = true ∧
    (Ship.make []).isSunk = true ∧
    ∀ ls : List String, ((Ship.make ["00", "00"]).hitAll ls).isSunk = false := by
  refine ⟨rfl, by simp [Ship.make], rfl, ?_⟩
  intro ls
  have hlen : (Ship.make ["00", "00"]).hits.length =
      (Ship.make ["00", "00"]).locations.length := by
    simp [Ship.make]
  have hnever : ∀ l : String, jsIndexOf ["00", "00"] l ≠ some 1 := by
    intro l
    by_cases h0 : l = "00"
    · simp [jsIndexOf, h0]
    · have hne : ("00" : String) ≠ l := fun h => h0 h.symm
      simp [jsIndexOf, hne]
  have hflag : ((Ship.make ["00", "00"]).hitAll ls).hits.getD 1 false = false := by
    rw [hitAll_getD _ ls hlen 1]
    simp [Ship.make, hnever]
  have hlen1 : ((Ship.make ["00", "00"]).hitAll ls).hits.length = 2 := by
    rw [hitAll_hits_length]
    simp [Ship.make]
  rcases h : ((Ship.make ["00", "00"]).hitAll ls).isSunk with _ | _
  · rfl
  · exfalso
    have hone := (isSunk_iff_getD _).mp h 1 (by omega)
    rw [hflag] at hone
    exact Bool.false_ne_true hone

/-- C8: a ship's sunk test is the conjunction of its hit flags. For a
ship with distinct cells, hitting every cell sinks it; hitting all cells
but one (any one) leaves it unsunk; and the zero-cell ship reports sunk
from the start. -/
theorem isSunk_cells (locs : List String) (hnd : locs.Nodup) :
    ((Ship.make locs).hitAll locs).isSunk = true ∧
    (∀ k < locs.length,
      ((Ship.make locs).hitAll (locs.eraseIdx k)).isSunk = false) ∧
    (Ship.make []).isSunk = true := by
  have hlen : (Ship.make locs).hits.length = (Ship.make locs).locations.length := by
    simp [Ship.make]
  refine ⟨?_, ?_, rfl⟩
  · rw [isSunk_iff_getD]
    intro i hi
    rw [hitAll_hits_length] at hi
    simp [Ship.make] at hi
    rw [hitAll_getD _ _ hlen i]
    have hany : locs.any
        (fun l => decide (jsIndexOf (Ship.make locs).locations l = some i)) = true := by
      rw [List.any_eq_true]
      refine ⟨locs.getD i "", ?_, ?_⟩
      · rw [List.getD_eq_getElem _ _ hi]
        exact List.getElem_mem hi
      · have hidx : jsIndexOf locs (locs.getD i "") = some i :=
          jsIndexOf_nodup_getD hnd hi
        rw [List.getD_eq_getElem?_getD] at hidx
        simp [Ship.make, hidx]
    simp [hany]
  · intro k hk
    have hflag : ((Ship.make locs).hitAll (locs.eraseIdx k)).hits.getD k false = false := by
      rw [hitAll_getD _ _ hlen k]
      have hany : ∀ l ∈ locs.eraseIdx k, ¬jsIndexOf locs l = some k := by
        intro l hl
        obtain ⟨i, hi, hik, hget⟩ := List.mem_eraseIdx_iff_getElem.mp hl
        have hidx : jsIndexOf locs l = some i := by
          have h2 := jsIndexOf_nodup_getD hnd hi
          rwa [List.getD_eq_getElem _ _ hi, hget] at h2
        intro hcontra
        rw [hidx] at hcontra
        exact hik (by simpa using hcontra)
      simp [Ship.make]
      exact hany
    rw [Bool.eq_false_iff]
    intro hsunk
    have hklen : k < ((Ship.make locs).hitAll (locs.eraseIdx k)).hits.length := by
      rw [hitAll_hits_length]
      simpa [Ship.make] using hk
    have := (isSunk_iff_getD _).mp hsunk k hklen
    rw [hflag] at this
    exact Bool.false_ne_true this

/-- C8 witness: the three-cell ship of the repository's tests, with
distinct cells "00" "01" "02": hitting all three sinks it, hitting any
two leaves it unsunk, and the empty ship is sunk. -/
theorem isSunk_cells_witness :
    (["00", "01", "02"] : List String).Nodup ∧
    ((Ship.make ["00", "01", "02"]).hitAll ["00", "01", "02"]).isSunk = true ∧
    (∀ k < (["00", "01", "02"] : List String).length,
      ((Ship.make ["00", "01", "02"]).hitAll
        ((["00", "01", "02"] : List String).eraseIdx k)).isSunk = false) ∧
    (Ship.make []).isSunk = true :=
  ⟨by decide, isSunk_cells ["00", "01", "02"] (by decide)⟩

/-- One iteration's random draws for ship placement: the orientation coin
(true for horizontal) and the two floored Math.random results that
getRandomStartPosition turns into a start row and a start column. -/
structure PlacementDraw where
  horizontal : Bool
  rowRand : Nat
  colRand : Nat

/-- Board.getRandomStartPosition: the start position is the pair of
floored random draws. Their ranges — the full board size on the free
axis, size - shipLength + 1 on the ship's axis — are properties of the
random source and appear as hypotheses on the draw stream in the
theorems that need them. -/
def getRandomStartPosition (d : PlacementDraw) : Nat × Nat :=
  (d.rowRand, d.colRand)

/-- Range of the two floored random draws produced by
Board.getRandomStartPosition for a given orientation. -/
def drawInRange (size shipLength : Nat) (d : PlacementDraw) : Prop :=
  if d.horizontal then
    d.rowRand < size ∧ d.colRand < size - shipLength + 1
  else
    d.rowRand < size - shipLength + 1 ∧ d.colRand < size

instance (size shipLength : Nat) (d : PlacementDraw) :
    Decidable (drawInRange size shipLength d) := by
  unfold drawInRange
  split <;> infer_instance

/-- Board.generateShipLocations: consecutive cells from the start cell,
to the right when horizontal, downward when vertical. -/
def generateShipLocations (startRow startCol shipLength : Nat)
    (horizontal : Bool) : List String :=
  (List.range shipLength).map (fun i =>
    coordStr (if horizontal then startRow else startRow + i)
      (if horizontal then startCol + i else startCol))

/-- Board.canPlaceShip: every location must parse, be in-bounds and be
water. A parse failure propagates the source's exception as none, and
the scan short-circuits at the first failing cell, as every does. -/
def Board.canPlaceShip (b : Board) : List String → Option Bool
  | [] => some true
  | location :: rest =>
    match parseCoordinate location with
    | none => none
    | some (row, col) =>
      if b.isValidCoordinate row col && (getCell b.grid row col == '~') then
        b.canPlaceShip rest
      else some false

/-- Grid-marking loop of Board.placeShip: each location's cell is set to
'S' in order. -/
def markCells (grid : List (List Char)) : List String → Option (List (List Char))
  | [] => some grid
  | location :: rest =>
    match parseCoordinate location with
    | none => none
    | some (row, col) => markCells (setCell grid row col 'S') rest

/-- Board.placeShip: constructs the Ship, appends it to the ship list,
and marks each of its cells on the grid. -/
def Board.placeShip (b : Board) (locations : List String) : Option Board :=
  match markCells b.grid locations with
  | none => none
  | some grid2 =>
    some { b with ships := b.ships ++ [Ship.make locations], grid := grid2 }

/-- Failure of a placement pass. The exhausted case carries the partial
and requested counts that appear in the source's error message; the
invalidCoordinate case is the coordinate-format exception. -/
inductive PlacementError where
  | exhausted (placed requested : Nat)
  | invalidCoordinate
deriving Repr, DecidableEq

/-- Main loop of Board.placeShipsRandomly. The source's while loop runs
while placedShips < numShips and attempts < 1000 (one attempt per
iteration, the budget shared by all ships of the pass). The fuel
argument, always 1000 - attempts here, only drives the structural
recursion: its zero case (attempts = 1000) checks the after-loop failure
condition directly. -/
def placeLoop (draws : Nat → PlacementDraw) (numShips shipLength : Nat) :
    Board → Nat → Nat → Nat → Except PlacementError Board
  | b, placedShips, _, 0 =>
    if placedShips < numShips then .error (.exhausted placedShips numShips)
    else .ok b
  | b, placedShips, attempts, fuel + 1 =>
    if placedShips < numShips ∧ attempts < 1000 then
      match b.canPlaceShip (generateShipLocations
          (getRandomStartPosition (draws attempts)).1
          (getRandomStartPosition (draws attempts)).2
          shipLength (draws attempts).horizontal) with
      | none => .error .invalidCoordinate
      | some true =>
        match b.placeShip (generateShipLocations
            (getRandomStartPosition (draws attempts)).1
            (getRandomStartPosition (draws attempts)).2
            shipLength (draws attempts).horizontal) with
        | none => .error .invalidCoordinate
        | some b2 =>
          placeLoop draws numShips shipLength b2 (placedShips + 1) (attempts + 1) fuel
      | some false =>
        placeLoop draws numShips shipLength b placedShips (attempts + 1) fuel
    else
      if placedShips < numShips then .error (.exhausted placedShips numShips)
      else .ok b

/-- Board.placeShipsRandomly: runs the bounded placement loop from zero
ships placed and zero attempts, with the shared budget of 1000. -/
def Board.placeShipsRandomly (b : Board) (draws : Nat → PlacementDraw)
    (numShips shipLength : Nat) : Except PlacementError Board :=
  placeLoop draws numShips shipLength b 0 0 1000

/-- Cell check backing the placement invariant: the location parses, is
in-bounds for the board, and its grid cell is no longer water. -/
def cellMarkedOk (b : Board) (loc : String) : Bool :=
  match parseCoordinate loc with
  | some (row, col) =>
    decide (row < b.size) && decide (col < b.size) &&
      decide (getCell b.grid row col ≠ '~')
  | none => false

/-- Two ships sharing no coordinate. -/
def shipsDisjoint (s1 s2 : Ship) : Prop :=
  ∀ loc ∈ s1.locations, loc ∉ s2.locations

instance : ∀ s1 s2 : Ship, Decidable (shipsDisjoint s1 s2) := fun s1 s2 =>
  List.decidableBAll (fun loc => loc ∉ s2.locations) s1.locations

/-- Placement invariant: every owned ship cell parses to an in-bounds
cell whose grid entry is not water, and the ships are pairwise
disjoint. -/
def placementInv (b : Board) : Prop :=
  (∀ s ∈ b.ships, ∀ loc ∈ s.locations, cellMarkedOk b loc = true) ∧
  b.ships.Pairwise shipsDisjoint

theorem parse_coordStr : ∀ r < 10, ∀ c < 10,
    parseCoordinate (coordStr r c) = some (r, c) := by decide

theorem getD_set_self {α : Type} (l : List α) (i : Nat) (a : α) (dflt : α)
    (hi : i < l.length) : (l.set i a).getD i dflt = a := by
  rw [List.getD_eq_getElem?_getD, List.getElem?_set_self hi]
  rfl

theorem getCell_bounds {g : List (List Char)} {r c : Nat}
    (h : getCell g r c ≠ '?') :
    r < g.length ∧ c < (g.getD r []).length := by
  unfold getCell at h
  by_cases hr : r < g.length
  · refine ⟨hr, ?_⟩
    by_contra hc
    rw [List.getD_eq_getElem?_getD (g.getD r []),
      List.getElem?_eq_none (by omega)] at h
    exact h rfl
  · exfalso
    rw [List.getD_eq_getElem?_getD g, List.getElem?_eq_none (by omega)] at h
    simp at h

theorem getD_set_ne {α : Type} (l : List α) {i j : Nat} (hij : i ≠ j)
    (a dflt : α) : (l.set i a).getD j dflt = l.getD j dflt := by
  rw [List.getD_eq_getElem?_getD (l.set i a), List.getElem?_set_ne hij,
    ← List.getD_eq_getElem?_getD]

theorem getCell_setCell_self {g : List (List Char)} {r c : Nat} (v : Char)
    (hr : r < g.length) (hc : c < (g.getD r []).length) :
    getCell (setCell g r c v) r c = v := by
  unfold getCell setCell
  rw [getD_set_self g r ((g.getD r []).set c v) [] hr,
    getD_set_self (g.getD r []) c v '?' hc]

theorem getCell_setCell_or (g : List (List Char)) (row col : Nat) (v : Char)
    (r c : Nat) :
    getCell (setCell g row col v) r c = v ∨
    getCell (setCell g row col v) r c = getCell g r c := by
  by_cases hr : row = r
  · subst hr
    by_cases hrow : row < g.length
    · by_cases hc : col = c
      · subst hc
        by_cases hcol : col < (g.getD row []).length
        · exact Or.inl (getCell_setCell_self v hrow hcol)
        · right
          unfold getCell setCell
          rw [getD_set_self g row ((g.getD row []).set col v) [] hrow,
            List.set_eq_of_length_le (by omega)]
      · right
        unfold getCell setCell
        rw [getD_set_self g row ((g.getD row []).set col v) [] hrow,
          getD_set_ne (g.getD row []) hc v '?']
    · right
      unfold getCell setCell
      rw [List.set_eq_of_length_le (l := g) (by omega)]
  · right
    unfold getCell setCell
    rw [getD_set_ne g hr ((g.getD row []).set col v) []]

theorem markCells_preserve {ls : List String} :
    ∀ {g g2 : List (List Char)}, markCells g ls = some g2 →
      ∀ r c, getCell g r c ≠ '~' → getCell g2 r c ≠ '~' := by
  induction ls with
  | nil =>
    intro g g2 h r c hrc
    unfold markCells at h
    cases h
    exact hrc
  | cons loc rest ih =>
    intro g g2 h r c hrc
    unfold markCells at h
    cases hp : parseCoordinate loc with
    | none => rw [hp] at h; cases h
    | some rc =>
      obtain ⟨row, col⟩ := rc
      rw [hp] at h
      apply ih h
      rcases getCell_setCell_or g row col 'S' r c with h1 | h1
      · rw [h1]; decide
      · rw [h1]; exact hrc

theorem markCells_marks {ls : List String} :
    ∀ {g g2 : List (List Char)}, markCells g ls = some g2 →
      ∀ loc ∈ ls, ∀ row col, parseCoordinate loc = some (row, col) →
        getCell g row col = '~' → getCell g2 row col ≠ '~' := by
  induction ls with
  | nil =>
    intro g g2 h loc hloc
    cases hloc
  | cons l0 rest ih =>
    intro g g2 h loc hloc row col hparse hwater
    unfold markCells at h
    cases hp : parseCoordinate l0 with
    | none => rw [hp] at h; cases h
    | some rc =>
      obtain ⟨r0, c0⟩ := rc
      rw [hp] at h
      rcases List.mem_cons.mp hloc with rfl | hmem
      · rw [hp] at hparse
        injection hparse with hpair
        injection hpair with h1 h2
        rw [← h1, ← h2] at hwater ⊢
        have hb := getCell_bounds (g := g) (r := r0) (c := c0)
          (by rw [hwater]; decide)
        have hs : getCell (setCell g r0 c0 'S') r0 c0 = 'S' :=
          getCell_setCell_self _ hb.1 hb.2
        exact markCells_preserve h r0 c0 (by rw [hs]; decide)
      · by_cases hw2 : getCell (setCell g r0 c0 'S') row col = '~'
        · exact ih h loc hmem row col hparse hw2
        · exact markCells_preserve h row col hw2

theorem markCells_total {ls : List String} :
    ∀ g : List (List Char),
      (∀ loc ∈ ls, ∃ rc : Nat × Nat, parseCoordinate loc = some rc) →
      ∃ g2, markCells g ls = some g2 := by
  induction ls with
  | nil => exact fun g _ => ⟨g, rfl⟩
  | cons l0 rest ih =>
    intro g h
    obtain ⟨⟨row, col⟩, hp⟩ := h l0 (List.mem_cons_self l0 rest)
    obtain ⟨g2, hg2⟩ := ih (setCell g row col 'S')
      (fun loc hloc => h loc (List.mem_cons_of_mem _ hloc))
    refine ⟨g2, ?_⟩
    unfold markCells
    rw [hp]
    exact hg2

theorem canPlaceShip_true {b : Board} {ls : List String}
    (h : b.canPlaceShip ls = some true) :
    ∀ loc ∈ ls, ∃ row col, parseCoordinate loc = some (row, col) ∧
      row < b.size ∧ col < b.size ∧ getCell b.grid row col = '~' := by
  induction ls with
  | nil => intro loc h2; cases h2
  | cons l0 rest ih =>
    unfold Board.canPlaceShip at h
    cases hp : parseCoordinate l0 with
    | none => rw [hp] at h; cases h
    | some rc =>
      obtain ⟨r0, c0⟩ := rc
      rw [hp] at h
      simp only [] at h
      by_cases hcond :
          (b.isValidCoordinate r0 c0 && (getCell b.grid r0 c0 == '~')) = true
      · rw [if_pos hcond] at h
        intro loc hloc
        rcases List.mem_cons.mp hloc with rfl | hmem
        · simp only [Board.isValidCoordinate, Bool.and_eq_true,
            decide_eq_true_eq, beq_iff_eq] at hcond
          refine ⟨r0, c0, hp, ?_, ?_, hcond.2⟩
          · exact_mod_cast hcond.1.1.1.2
          · exact_mod_cast hcond.1.2
        · exact ih h loc hmem
      · rw [if_neg hcond] at h
        simp at h

theorem canPlaceShip_total {b : Board} {ls : List String}
    (h : ∀ loc ∈ ls, ∃ rc : Nat × Nat, parseCoordinate loc = some rc) :
    ∃ r, b.canPlaceShip ls = some r := by
  induction ls with
  | nil => exact ⟨true, rfl⟩
  | cons l0 rest ih =>
    obtain ⟨⟨row, col⟩, hp⟩ := h l0 (List.mem_cons_self l0 rest)
    unfold Board.canPlaceShip
    rw [hp]
    simp only []
    by_cases hcond :
        (b.isValidCoordinate row col && (getCell b.grid row col == '~')) = true
    · rw [if_pos hcond]
      exact ih (fun loc hloc => h loc (List.mem_cons_of_mem _ hloc))
    · rw [if_neg hcond]
      exact ⟨false, rfl⟩

theorem placeShip_elim {b b2 : Board} {ls : List String}
    (h : b.placeShip ls = some b2) :
    ∃ g2, markCells b.grid ls = some g2 ∧
      b2 = { b with ships := b.ships ++ [Ship.make ls], grid := g2 } := by
  unfold Board.placeShip at h
  cases hm : markCells b.grid ls with
  | none => rw [hm] at h; cases h
  | some g2 =>
    rw [hm] at h
    injection h with h
    exact ⟨g2, rfl, h.symm⟩

theorem placeShip_total {b : Board} {ls : List String}
    (h : ∀ loc ∈ ls, ∃ rc : Nat × Nat, parseCoordinate loc = some rc) :
    ∃ b2, b.placeShip ls = some b2 ∧ b2.size = b.size ∧
      b2.ships.length = b.ships.length + 1 := by
  obtain ⟨g2, hg2⟩ := markCells_total b.grid h
  refine ⟨{ b with ships := b.ships ++ [Ship.make ls], grid := g2 }, ?_, rfl, by simp⟩
  unfold Board.placeShip
  rw [hg2]

theorem cellMarkedOk_iff {b : Board} {loc : String} :
    cellMarkedOk b loc = true ↔ ∃ row col,
      parseCoordinate loc = some (row, col) ∧ row < b.size ∧ col < b.size ∧
        getCell b.grid row col ≠ '~' := by
  unfold cellMarkedOk
  cases hp : parseCoordinate loc with
  | none => simp
  | some rc =>
    obtain ⟨row, col⟩ := rc
    simp only [Bool.and_eq_true, decide_eq_true_eq]
    constructor
    · rintro ⟨⟨h1, h2⟩, h3⟩
      exact ⟨row, col, rfl, h1, h2, h3⟩
    · rintro ⟨row2, col2, hp2, h1, h2, h3⟩
      injection hp2 with hpair
      injection hpair with e1 e2
      subst e1
      subst e2
      exact ⟨⟨h1, h2⟩, h3⟩

theorem place_step_inv {b b2 : Board} {ls : List String}
    (hinv : placementInv b) (hcan : b.canPlaceShip ls = some true)
    (hps : b.placeShip ls = some b2) : placementInv b2 := by
  obtain ⟨g2, hmark, rfl⟩ := placeShip_elim hps
  have hcells := canPlaceShip_true hcan
  constructor
  · intro s hs loc hloc
    rw [cellMarkedOk_iff]
    rcases List.mem_append.mp hs with hold | hnew
    · obtain ⟨row, col, hp, h1, h2, h3⟩ :=
        cellMarkedOk_iff.mp (hinv.1 s hold loc hloc)
      exact ⟨row, col, hp, h1, h2, markCells_preserve hmark row col h3⟩
    · rw [List.mem_singleton] at hnew
      subst hnew
      have hloc2 : loc ∈ ls := by simpa [Ship.make] using hloc
      obtain ⟨row, col, hp, h1, h2, h3⟩ := hcells loc hloc2
      exact ⟨row, col, hp, h1, h2, markCells_marks hmark loc hloc2 row col hp h3⟩
  · rw [List.pairwise_append]
    refine ⟨hinv.2, List.pairwise_singleton _ _, ?_⟩
    intro s1 hs1 s2 hs2
    rw [List.mem_singleton] at hs2
    subst hs2
    intro loc hloc1 hloc2
    have hloc2b : loc ∈ ls := by simpa [Ship.make] using hloc2
    obtain ⟨row, col, hp, _, _, hwater⟩ := hcells loc hloc2b
    obtain ⟨row2, col2, hp2, _, _, hmarked⟩ :=
      cellMarkedOk_iff.mp (hinv.1 s1 hs1 loc hloc1)
    rw [hp] at hp2
    injection hp2 with hpair
    injection hpair with e1 e2
    rw [← e1, ← e2] at hmarked
    exact hmarked hwater

theorem placeLoop_inv (draws : Nat → PlacementDraw) (numShips shipLength : Nat) :
    ∀ (fuel : Nat) (b : Board) (placed attempts : Nat) (b2 : Board),
      placementInv b →
      placeLoop draws numShips shipLength b placed attempts fuel = .ok b2 →
      placementInv b2 := by
  intro fuel
  induction fuel with
  | zero =>
    intro b placed attempts b2 hinv h
    unfold placeLoop at h
    by_cases hc : placed < numShips
    · rw [if_pos hc] at h
      cases h
    · rw [if_neg hc] at h
      cases h
      exact hinv
  | succ fuel ih =>
    intro b placed attempts b2 hinv h
    unfold placeLoop at h
    by_cases hc : placed < numShips ∧ attempts < 1000
    · rw [if_pos hc] at h
      cases hcan : b.canPlaceShip (generateShipLocations
          (getRandomStartPosition (draws attempts)).1
          (getRandomStartPosition (draws attempts)).2
          shipLength (draws attempts).horizontal) with
      | none =>
        rw [hcan] at h
        cases h
      | some res =>
        rw [hcan] at h
        cases res with
        | false =>
          simp only [] at h
          exact ih b placed (attempts + 1) b2 hinv h
        | true =>
          simp only [] at h
          cases hps : b.placeShip (generateShipLocations
              (getRandomStartPosition (draws attempts)).1
              (getRandomStartPosition (draws attempts)).2
              shipLength (draws attempts).horizontal) with
          | none =>
            rw [hps] at h
            cases h
          | some b3 =>
            rw [hps] at h
            simp only [] at h
            exact ih b3 (placed + 1) (attempts + 1) b2
              (place_step_inv hinv hcan hps) h
    · rw [if_neg hc] at h
      by_cases hc2 : placed < numShips
      · rw [if_pos hc2] at h
        cases h
      · rw [if_neg hc2] at h
        cases h
        exact hinv

/-- C2: after a successful random placement pass on a board satisfying
the placement invariant (in particular on any fresh board), every cell
of every ship on the board parses to an in-bounds coordinate and no two
ships share a coordinate: an attempt is accepted only when every target
cell is still water, and a placed ship leaves none of its cells
water. -/
theorem placeShipsRandomly_invariant (b : Board) (draws : Nat → PlacementDraw)
    (numShips shipLength : Nat) (b2 : Board) (hinv : placementInv b)
    (hok : b.placeShipsRandomly draws numShips shipLength = .ok b2) :
    (∀ s ∈ b2.ships, ∀ loc ∈ s.locations, ∃ row col,
      parseCoordinate loc = some (row, col) ∧ row < b2.size ∧ col < b2.size) ∧
    b2.ships.Pairwise shipsDisjoint := by
  have hinv2 := placeLoop_inv draws numShips shipLength 1000 b 0 0 b2 hinv hok
  refine ⟨?_, hinv2.2⟩
  intro s hs loc hloc
  obtain ⟨row, col, hp, h1, h2, _⟩ := cellMarkedOk_iff.mp (hinv2.1 s hs loc hloc)
  exact ⟨row, col, hp, h1, h2⟩

/-- Constant draw stream for the concrete placement runs: always
horizontal from the top-left corner. -/
def exDraws : Nat → PlacementDraw := fun _ => ⟨true, 0, 0⟩

/-- Board produced by one successful concrete placement run. -/
def c2Board : Board :=
  match (Board.init 10).placeShipsRandomly exDraws 1 3 with
  | .ok b => b
  | .error _ => Board.init 10

/-- C2 witness: a fresh 10 by 10 board satisfies the invariant, the
concrete run places its one ship successfully, and the resulting board
has only in-bounds, pairwise disjoint ships. -/
theorem placeShipsRandomly_invariant_witness :
    placementInv (Board.init 10) ∧
    (Board.init 10).placeShipsRandomly exDraws 1 3 = .ok c2Board ∧
    ((∀ s ∈ c2Board.ships, ∀ loc ∈ s.locations, ∃ row col,
      parseCoordinate loc = some (row, col) ∧ row < c2Board.size ∧
        col < c2Board.size) ∧
    c2Board.ships.Pairwise shipsDisjoint) :=
  have hinv : placementInv (Board.init 10) :=
    ⟨fun s hs => absurd hs (by simp [Board.init]), List.Pairwise.nil⟩
  have hok : (Board.init 10).placeShipsRandomly exDraws 1 3 = .ok c2Board := rfl
  ⟨hinv, hok,
    placeShipsRandomly_invariant (Board.init 10) exDraws 1 3 c2Board hinv hok⟩

theorem generateShipLocations_parse (size shipLength : Nat) (d : PlacementDraw)
    (hsize : size ≤ 10) (hlen : shipLength ≤ size)
    (hd : drawInRange size shipLength d) :
    ∀ loc ∈ generateShipLocations (getRandomStartPosition d).1
        (getRandomStartPosition d).2 shipLength d.horizontal,
      ∃ rc : Nat × Nat, parseCoordinate loc = some rc := by
  intro loc hloc
  unfold generateShipLocations getRandomStartPosition at hloc
  simp only [List.mem_map, List.mem_range] at hloc
  obtain ⟨i, hi, rfl⟩ := hloc
  unfold drawInRange at hd
  cases hh : d.horizontal with
  | true =>
    simp only [hh, if_true] at hd
    simp only [hh, if_true]
    exact ⟨(d.rowRand, d.colRand + i),
      parse_coordStr d.rowRand (by omega) (d.colRand + i) (by omega)⟩
  | false =>
    rw [hh] at hd
    rw [if_neg (by simp : ¬(false = true))] at hd
    simp only [if_neg (by simp : ¬(false = true))]
    exact ⟨(d.rowRand + i, d.colRand),
      parse_coordStr (d.rowRand + i) (by omega) d.colRand (by omega)⟩

theorem placeLoop_outcomes (draws : Nat → PlacementDraw)
    (numShips shipLength : Nat) :
    ∀ (fuel : Nat) (b : Board) (placed attempts : Nat),
      b.size ≤ 10 → shipLength ≤ b.size →
      (∀ i, drawInRange b.size shipLength (draws i)) →
      (∃ b2, placeLoop draws numShips shipLength b placed attempts fuel = .ok b2 ∧
        b2.ships.length = b.ships.length + (numShips - placed)) ∨
      (∃ p, placeLoop draws numShips shipLength b placed attempts fuel =
        .error (.exhausted p numShips) ∧ p < numShips) := by
  intro fuel
  induction fuel with
  | zero =>
    intro b placed attempts hsz hlen hdr
    unfold placeLoop
    by_cases hc : placed < numShips
    · right
      exact ⟨placed, by rw [if_pos hc], hc⟩
    · left
      exact ⟨b, by rw [if_neg hc], by omega⟩
  | succ fuel ih =>
    intro b placed attempts hsz hlen hdr
    unfold placeLoop
    by_cases hc : placed < numShips ∧ attempts < 1000
    · rw [if_pos hc]
      have hparse := generateShipLocations_parse b.size shipLength
        (draws attempts) hsz hlen (hdr attempts)
      obtain ⟨res, hcan⟩ := canPlaceShip_total (b := b) hparse
      rw [hcan]
      cases res with
      | true =>
        simp only []
        obtain ⟨b3, hps, hsz3, hships3⟩ := placeShip_total (b := b) hparse
        rw [hps]
        simp only []
        rcases ih b3 (placed + 1) (attempts + 1) (by rw [hsz3]; exact hsz)
            (by rw [hsz3]; exact hlen) (by rw [hsz3]; exact hdr) with
          ⟨b4, hok, hlen4⟩ | ⟨p, herr, hp⟩
        · left
          refine ⟨b4, hok, ?_⟩
          rw [hlen4, hships3]
          omega
        · right
          exact ⟨p, herr, hp⟩
      | false =>
        simp only []
        exact ih b placed (attempts + 1) hsz hlen hdr
    · rw [if_neg hc]
      by_cases hc2 : placed < numShips
      · right
        exact ⟨placed, by rw [if_pos hc2], hc2⟩
      · left
        exact ⟨b, by rw [if_neg hc2], by omega⟩

/-- C9: with in-range draws and a feasible configuration (ship no longer
than the board, board within the two-digit coordinate encoding), a
placement pass with its single 1000-attempt budget shared across all
ships either places all requested ships and succeeds, or fails with the
exhausted error carrying the partial count of ships actually placed
(always less than the requested count) together with the requested
count. -/
theorem placeShipsRandomly_outcomes (b : Board) (draws : Nat → PlacementDraw)
    (numShips shipLength : Nat) (hsz : b.size ≤ 10)
    (hlen : shipLength ≤ b.size)
    (hdr : ∀ i, drawInRange b.size shipLength (draws i)) :
    (∃ b2, b.placeShipsRandomly draws numShips shipLength = .ok b2 ∧
      b2.ships.length = b.ships.length + numShips) ∨
    (∃ placed, b.placeShipsRandomly draws numShips shipLength =
      .error (.exhausted placed numShips) ∧ placed < numShips) := by
  have h := placeLoop_outcomes draws numShips shipLength 1000 b 0 0 hsz hlen hdr
  simpa [Board.placeShipsRandomly] using h

/-- C9 witness: on a fresh 10 by 10 board with the constant in-range
draw stream, requesting one ship of length three, the pass succeeds with
exactly one ship placed. -/
theorem placeShipsRandomly_outcomes_witness :
    (Board.init 10).size ≤ 10 ∧ 3 ≤ (Board.init 10).size ∧
    (∀ i, drawInRange (Board.init 10).size 3 (exDraws i)) ∧
    ((∃ b2, (Board.init 10).placeShipsRandomly exDraws 1 3 = .ok b2 ∧
      b2.ships.length = (Board.init 10).ships.length + 1) ∨
    (∃ placed, (Board.init 10).placeShipsRandomly exDraws 1 3 =
      .error (.exhausted placed 1) ∧ placed < 1)) :=
  have hdr : ∀ i, drawInRange (Board.init 10).size 3 (exDraws i) :=
    fun _ => show drawInRange 10 3 ⟨true, 0, 0⟩ by decide
  ⟨by decide, by decide, hdr,
    placeShipsRandomly_outcomes (Board.init 10) exDraws 1 3
      (by decide) (by decide) hdr⟩

/-- AI modes of the CPU player. -/
inductive Mode where
  | hunt
  | target
deriving Repr, DecidableEq

/-- CPUPlayer state: the Player's own board and opponent-tracking board,
plus the CPU extras — current mode, FIFO target queue and most recent
hit. -/
structure CPUState where
  board : Board
  opponentBoard : Board
  mode : Mode
  targetQueue : List String
  lastHit : Option String
deriving Repr, DecidableEq

/-- CPUPlayer constructor: fresh 10 by 10 boards, hunt mode, empty
queue, no last hit. -/
def CPUState.init : CPUState :=
  { board := Board.init 10, opponentBoard := Board.init 10,
    mode := Mode.hunt, targetQueue := [], lastHit := none }

/-- Orthogonal neighbor candidates of a cell in the source's fixed
order: up, down, left, right (row - 1, row + 1, col - 1, col + 1). -/
def adjCands (row col : Nat) : List (Int × Int) :=
  [((row : Int) - 1, (col : Int)), ((row : Int) + 1, (col : Int)),
   ((row : Int), (col : Int) - 1), ((row : Int), (col : Int) + 1)]

/-- Body of the forEach in CPUPlayer.addAdjacentTargets: an in-bounds
candidate that is neither guessed nor already queued is appended to the
target queue. The coordinate string is built only under the validity
guard, where both components are non-negative, so building it from the
truncated components equals the source's template literal. -/
def adjStep (st : CPUState) (rc : Int × Int) : CPUState :=
  if st.opponentBoard.isValidCoordinate rc.1 rc.2 then
    if !(st.opponentBoard.hasBeenGuessed (coordStr rc.1.toNat rc.2.toNat)) &&
        !(st.targetQueue.contains (coordStr rc.1.toNat rc.2.toNat)) then
      { st with targetQueue :=
          st.targetQueue ++ [coordStr rc.1.toNat rc.2.toNat] }
    else st
  else st

/-- CPUPlayer.addAdjacentTargets: folds the forEach body over the four
neighbor candidates; parsing failure models the source throwing. -/
def CPUState.addAdjacentTargets (p : CPUState) (coordinate : String) :
    Option CPUState :=
  match parseCoordinate coordinate with
  | none => none
  | some (row, col) => some ((adjCands row col).foldl adjStep p)

/-- CPUPlayer.processGuessResult: records the coordinate in the tracking
board's guessed-set and marks its grid cell, updates lastHit on a hit,
and drives the mode transition: hit-and-sunk resets to hunt with an
empty queue, hit-not-sunk switches to target and enqueues adjacent
cells, and a miss in target mode with an empty queue falls back to hunt.
The source's sequential mutations are flattened into one record update
per branch. -/
def CPUState.processGuessResult (p : CPUState) (coordinate : String)
    (result : GuessResult) : Option CPUState :=
  match parseCoordinate coordinate with
  | none => none
  | some (row, col) =>
    if result.hit then
      if result.sunk then
        some { p with
          opponentBoard := { (p.opponentBoard.addGuess coordinate) with
            grid := setCell (p.opponentBoard.addGuess coordinate).grid row col 'X' },
          lastHit := some coordinate,
          mode := Mode.hunt, targetQueue := [] }
      else
        CPUState.addAdjacentTargets { p with
          opponentBoard := { (p.opponentBoard.addGuess coordinate) with
            grid := setCell (p.opponentBoard.addGuess coordinate).grid row col 'X' },
          lastHit := some coordinate,
          mode := Mode.target } coordinate
    else
      if p.mode = Mode.target ∧ p.targetQueue = [] then
        some { p with
          opponentBoard := { (p.opponentBoard.addGuess coordinate) with
            grid := setCell (p.opponentBoard.addGuess coordinate).grid row col 'O' },
          mode := Mode.hunt }
      else
        some { p with
          opponentBoard := { (p.opponentBoard.addGuess coordinate) with
            grid := setCell (p.opponentBoard.addGuess coordinate).grid row col 'O' } }

/-- Row-major list of all 100 coordinates of the 10 by 10 board, the
order of the fallback scan in generateHuntGuess. -/
def allCoords : List String :=
  (List.range 10).flatMap (fun row =>
    (List.range 10).map (fun col => coordStr row col))

/-- Random loop of CPUPlayer.generateHuntGuess: each iteration draws a
coordinate (the two floored Math.random results) and the loop stops at
the first unguessed coordinate or when the attempt counter reaches 100,
returning the last drawn coordinate with the attempt count. The fuel,
always 100 - i here, only drives the structural recursion; the loop stops
through the attempt counter. -/
def huntLoop (guessed : String → Bool) (draws : Nat → Nat × Nat) :
    Nat → Nat → String × Nat
  | i, 0 => (coordStr (draws i).1 (draws i).2, i + 1)
  | i, fuel + 1 =>
    if guessed (coordStr (draws i).1 (draws i).2) ∧ i + 1 < 100 then
      huntLoop guessed draws (i + 1) fuel
    else (coordStr (draws i).1 (draws i).2, i + 1)

/-- CPUPlayer.generateHuntGuess: bounded random loop, then — when the
100-attempt budget was used up — a deterministic row-major scan for the
first unguessed coordinate; if even the scan finds nothing (fully
guessed board) the last drawn coordinate is returned. -/
def generateHuntGuess (b : Board) (draws : Nat → Nat × Nat) : String :=
  match huntLoop (fun s => b.hasBeenGuessed s) draws 0 100 with
  | (coordinate, attempts) =>
    if attempts ≥ 100 then
      match allCoords.find? (fun s => !(b.hasBeenGuessed s)) with
      | some coord => coord
      | none => coordinate
    else coordinate

/-- Queue-draining loop of CPUPlayer.generateGuess: shifts entries while
the current candidate is already guessed and more remain. -/
def shiftLoop (guessed : String → Bool) (coordinate : String) :
    List String → String × List String
  | [] => (coordinate, [])
  | q :: rest =>
    if guessed coordinate then shiftLoop guessed q rest
    else (coordinate, q :: rest)

/-- CPUPlayer.generateGuess: in target mode with a non-empty queue,
drains already-guessed entries; if the drained candidate is still
guessed, falls back to hunt mode and a hunt guess, else returns the
candidate. In hunt mode, or with an empty queue, sets hunt mode and
generates a hunt guess. Returns the coordinate and the updated state. -/
def CPUState.generateGuess (p : CPUState) (draws : Nat → Nat × Nat) :
    String × CPUState :=
  match p.mode, p.targetQueue with
  | Mode.target, q :: rest =>
    match shiftLoop (fun s => p.opponentBoard.hasBeenGuessed s) q rest with
    | (coordinate, queue2) =>
      if p.opponentBoard.hasBeenGuessed coordinate then
        (generateHuntGuess p.opponentBoard draws,
          { p with targetQueue := queue2, mode := Mode.hunt })
      else (coordinate, { p with targetQueue := queue2 })
  | _, _ =>
    (generateHuntGuess p.opponentBoard draws, { p with mode := Mode.hunt })

/-- Core of Game.handlePlayerTurn after input validation: the guess is
resolved on the CPU player's own board (receiveGuess), and then the
human player's opponent-tracking board is updated by calling
processGuess on the tracking board itself — the structured result of the
first resolution is not passed along. Returns the result shown to the
player, the CPU's board and the human's tracking board. -/
def handlePlayerTurn (cpuBoard trackingBoard : Board) (coordinate : String) :
    Option (GuessResult × Board × Board) :=
  match cpuBoard.processGuess coordinate with
  | none => none
  | some (result, cpuBoard2) =>
    match trackingBoard.processGuess coordinate with
    | none => none
    | some (_, trackingBoard2) => some (result, cpuBoard2, trackingBoard2)

/-- C5: whatever the AI's prior mode, target queue and last hit, and for
any parseable coordinate, processing a hit-and-sunk result resets the
mode to hunt and empties the target queue. -/
theorem processGuessResult_sunk_resets (p : CPUState) (coordinate : String)
    (row col : Nat) (aG : Bool)
    (hparse : parseCoordinate coordinate = some (row, col)) :
    ∃ p2, p.processGuessResult coordinate
        { hit := true, sunk := true, alreadyGuessed := aG } = some p2 ∧
      p2.mode = Mode.hunt ∧ p2.targetQueue = [] := by
  unfold CPUState.processGuessResult
  rw [hparse]
  exact ⟨_, rfl, rfl, rfl⟩

/-- Concrete target-mode state with a non-empty queue and a last hit,
used for the sunk-reset scenario. -/
def sunkScenarioState : CPUState :=
  { CPUState.init with
    mode := Mode.target,
    targetQueue := ["12", "55"],
    lastHit := some "12" }

/-- C5 witness: a target-mode state with a non-empty queue and a last
hit, processing a sunk result at "34", comes back to hunt mode with an
empty queue. -/
theorem processGuessResult_sunk_resets_witness :
    parseCoordinate "34" = some (3, 4) ∧
    ∃ p2, sunkScenarioState.processGuessResult "34"
        { hit := true, sunk := true, alreadyGuessed := false } = some p2 ∧
      p2.mode = Mode.hunt ∧ p2.targetQueue = [] :=
  ⟨by decide,
    processGuessResult_sunk_resets sunkScenarioState "34" 3 4 false (by decide)⟩

/-- Concrete CPU-side board for the human-turn scenario: a fresh 10 by
10 board holding one single-cell ship at "34". -/
def c3CpuBoard : Board := ((Board.init 10).placeShip ["34"]).getD (Board.init 10)

/-- C3: evaluating the human turn at a hitting guess. The resolution on
the CPU board reports a hit, yet the human's opponent-tracking board
records the cell as a miss ('O'), because Game.handlePlayerTurn updates
the tracking board by re-running processGuess on the shipless tracking
board instead of feeding back the structured result (contrast the CPU
path, processGuessResult, which marks 'X' on a hit). -/
theorem playerTurn_tracking_misses_hit :
    (handlePlayerTurn c3CpuBoard (Board.init 10) "34").map
      (fun x => (x.1.hit, getCell x.2.2.grid 3 4)) = some (true, 'O') := by
  decide

theorem coordStr_inj {a b a2 b2 : Nat} (ha : a < 10) (hb : b < 10)
    (ha2 : a2 < 10) (hb2 : b2 < 10) (h : coordStr a b = coordStr a2 b2) :
    a = a2 ∧ b = b2 := by
  have h1 := parse_coordStr a ha b hb
  rw [h, parse_coordStr a2 ha2 b2 hb2] at h1
  injection h1 with hp
  injection hp with e1 e2
  exact ⟨e1.symm, e2.symm⟩

/-- Coordinate strings of the candidates that pass the in-bounds check
of a board, in candidate order. -/
def validKeys (b : Board) (cands : List (Int × Int)) : List String :=
  (cands.filter (fun rc => b.isValidCoordinate rc.1 rc.2)).map
    (fun rc => coordStr rc.1.toNat rc.2.toNat)

/-- Queue contents prescribed after a hit in hunt mode: the in-bounds
orthogonal neighbors of the cell, in the fixed order up, down, left,
right, that are not yet in the board's guessed-set. -/
def huntHitQueue (b : Board) (row col : Nat) : List String :=
  (validKeys b (adjCands row col)).filter (fun s => !(b.hasBeenGuessed s))

theorem adjCands_nodup (row col : Nat) : (adjCands row col).Nodup := by
  simp [adjCands, Prod.ext_iff]
  omega

theorem validKeys_cons_pos {b : Board} {rc : Int × Int}
    (cands : List (Int × Int)) (hvalid : b.isValidCoordinate rc.1 rc.2 = true) :
    validKeys b (rc :: cands) =
      coordStr rc.1.toNat rc.2.toNat :: validKeys b cands := by
  unfold validKeys
  rw [List.filter_cons]
  simp [hvalid]

theorem validKeys_cons_neg {b : Board} {rc : Int × Int}
    (cands : List (Int × Int)) (hvalid : ¬b.isValidCoordinate rc.1 rc.2 = true) :
    validKeys b (rc :: cands) = validKeys b cands := by
  unfold validKeys
  rw [List.filter_cons]
  simp [hvalid]

theorem adjCands_keys_nodup (b : Board) (row col : Nat) (hsize : b.size ≤ 10) :
    (validKeys b (adjCands row col)).Nodup := by
  apply List.Nodup.map_on
  · intro x hx y hy hxy
    rw [List.mem_filter] at hx hy
    have hvx := hx.2
    have hvy := hy.2
    simp only [Board.isValidCoordinate, Bool.and_eq_true, decide_eq_true_eq]
      at hvx hvy
    obtain ⟨⟨⟨hx1, hx2⟩, hx3⟩, hx4⟩ := hvx
    obtain ⟨⟨⟨hy1, hy2⟩, hy3⟩, hy4⟩ := hvy
    have h := @coordStr_inj x.1.toNat x.2.toNat y.1.toNat y.2.toNat
      (by omega) (by omega) (by omega) (by omega) hxy
    have e1 : x.1 = y.1 := by omega
    have e2 : x.2 = y.2 := by omega
    exact Prod.ext e1 e2
  · exact List.Nodup.filter _ (adjCands_nodup row col)

theorem adjStep_foldl (b : Board) :
    ∀ (cands : List (Int × Int)) (p : CPUState), p.opponentBoard = b →
      (validKeys b cands).Nodup →
      (∀ s ∈ validKeys b cands, s ∉ p.targetQueue) →
      cands.foldl adjStep p =
        { p with targetQueue := p.targetQueue ++ (validKeys b cands).filter (fun s => !(b.hasBeenGuessed s)) } := by
  intro cands
  induction cands with
  | nil =>
    intro p hob hnd hq0
    simp only [validKeys, List.filter_nil, List.map_nil, List.foldl_nil,
      List.append_nil]
  | cons rc rest ih =>
    intro p hob hnd hq0
    rw [List.foldl_cons]
    by_cases hvalid : b.isValidCoordinate rc.1 rc.2 = true
    · rw [validKeys_cons_pos rest hvalid] at hnd hq0 ⊢
      rw [List.nodup_cons] at hnd
      by_cases hguessed : b.hasBeenGuessed (coordStr rc.1.toNat rc.2.toNat) = true
      · have hstep : adjStep p rc = p := by
          unfold adjStep
          rw [hob]
          simp [hvalid, hguessed]
        rw [hstep, ih p hob hnd.2 (fun s hs => hq0 s (List.mem_cons_of_mem _ hs))]
        congr 1
        rw [List.filter_cons]
        simp [hguessed]
      · have hnotin : coordStr rc.1.toNat rc.2.toNat ∉ p.targetQueue :=
          hq0 _ (List.mem_cons_self _ _)
        have hcontains :
            p.targetQueue.contains (coordStr rc.1.toNat rc.2.toNat) = false := by
          rw [Bool.eq_false_iff]
          intro hc
          exact hnotin (by simpa using hc)
        have hg : b.hasBeenGuessed (coordStr rc.1.toNat rc.2.toNat) = false :=
          Bool.eq_false_iff.mpr hguessed
        have hstep : adjStep p rc =
            { p with targetQueue :=
                p.targetQueue ++ [coordStr rc.1.toNat rc.2.toNat] } := by
          unfold adjStep
          rw [hob]
          simp [hvalid, hg, hcontains, hnotin]
        have hq0b : ∀ s ∈ validKeys b rest,
            s ∉ p.targetQueue ++ [coordStr rc.1.toNat rc.2.toNat] := by
          intro s hs
          rw [List.mem_append]
          rintro (h1 | h1)
          · exact hq0 s (List.mem_cons_of_mem _ hs) h1
          · rw [List.mem_singleton] at h1
            subst h1
            exact hnd.1 hs
        rw [hstep, ih { p with targetQueue :=
            p.targetQueue ++ [coordStr rc.1.toNat rc.2.toNat] } hob hnd.2 hq0b]
        congr 1
        rw [List.filter_cons]
        simp [hg]
    · have hstep : adjStep p rc = p := by
        unfold adjStep
        rw [hob, if_neg hvalid]
      rw [validKeys_cons_neg rest hvalid] at hnd hq0 ⊢
      rw [hstep, ih p hob hnd hq0]

theorem addGuess_size (b : Board) (coordinate : String) :
    (b.addGuess coordinate).size = b.size := by
  unfold Board.addGuess
  split <;> rfl

theorem addAdjacentTargets_spec (p : CPUState) (row col : Nat)
    (hrow : row < 10) (hcol : col < 10) (hq : p.targetQueue = [])
    (hsize : p.opponentBoard.size ≤ 10) :
    p.addAdjacentTargets (coordStr row col) =
      some { p with targetQueue := huntHitQueue p.opponentBoard row col } := by
  unfold CPUState.addAdjacentTargets
  rw [parse_coordStr row hrow col hcol]
  simp only []
  have hfold := adjStep_foldl p.opponentBoard (adjCands row col) p rfl
    (adjCands_keys_nodup p.opponentBoard row col hsize)
    (by rw [hq]; intro s _ hs; cases hs)
  rw [hfold, hq]
  rfl

theorem huntHitQueue_same (b2 b : Board) (row col : Nat)
    (hsz : b2.size = b.size)
    (hgg : ∀ s, s ≠ coordStr row col →
      b2.hasBeenGuessed s = b.hasBeenGuessed s)
    (hrow : row < 10) (hcol : col < 10) (hb : b.size ≤ 10) :
    huntHitQueue b2 row col = huntHitQueue b row col := by
  unfold huntHitQueue
  have h1 : validKeys b2 (adjCands row col) = validKeys b (adjCands row col) := by
    unfold validKeys
    congr 1
    apply List.filter_congr
    intro rc _
    unfold Board.isValidCoordinate
    rw [hsz]
  rw [h1]
  apply List.filter_congr
  intro s hs
  have hne : s ≠ coordStr row col := by
    unfold validKeys at hs
    rw [List.mem_map] at hs
    obtain ⟨rc, hmem, rfl⟩ := hs
    rw [List.mem_filter] at hmem
    obtain ⟨hmem2, hvalid⟩ := hmem
    simp only [Board.isValidCoordinate, Bool.and_eq_true, decide_eq_true_eq]
      at hvalid
    obtain ⟨⟨⟨h1a, h1b⟩, h2a⟩, h2b⟩ := hvalid
    intro heq
    have hinj := coordStr_inj (by omega) (by omega) hrow hcol heq
    simp only [adjCands, List.mem_cons, List.mem_singleton,
      List.not_mem_nil, or_false] at hmem2
    rcases hmem2 with h | h | h | h <;> subst h <;>
      dsimp only at hinj h1a h1b h2a h2b <;> omega
  rw [hgg s hne]

/-- C4: from a hunt-mode state (whose target queue, per the AI
invariant, is empty) over a 10 by 10 tracking board, processing a
hit-not-sunk result at any in-bounds cell switches the mode to target
and leaves as target queue exactly the in-bounds orthogonal neighbors of
the cell that were not yet in the guessed-set, enqueued in the fixed
order up, down, left, right. -/
theorem processGuessResult_hunt_hit (p : CPUState) (row col : Nat) (aG : Bool)
    (hmode : p.mode = Mode.hunt) (hq : p.targetQueue = [])
    (hsize : p.opponentBoard.size = 10) (hrow : row < 10) (hcol : col < 10) :
    ∃ p2, p.processGuessResult (coordStr row col)
        { hit := true, sunk := false, alreadyGuessed := aG } = some p2 ∧
      p2.mode = Mode.target ∧
      p2.targetQueue = huntHitQueue p.opponentBoard row col := by
  have hparse : parseCoordinate (coordStr row col) = some (row, col) :=
    parse_coordStr row hrow col hcol
  have hadj := addAdjacentTargets_spec
    { p with
      opponentBoard := { (p.opponentBoard.addGuess (coordStr row col)) with
        grid := setCell (p.opponentBoard.addGuess (coordStr row col)).grid row col 'X' },
      lastHit := some (coordStr row col),
      mode := Mode.target } row col hrow hcol hq
    (by
      show (p.opponentBoard.addGuess (coordStr row col)).size ≤ 10
      rw [addGuess_size, hsize])
  have hhq : huntHitQueue { (p.opponentBoard.addGuess (coordStr row col)) with
        grid := setCell (p.opponentBoard.addGuess (coordStr row col)).grid row col 'X' }
      row col = huntHitQueue p.opponentBoard row col := by
    apply huntHitQueue_same
    · show (p.opponentBoard.addGuess (coordStr row col)).size = p.opponentBoard.size
      exact addGuess_size _ _
    · intro s hs
      show (p.opponentBoard.addGuess (coordStr row col)).hasBeenGuessed s = _
      unfold Board.addGuess Board.hasBeenGuessed
      split
      · rfl
      · show (coordStr row col :: p.opponentBoard.guesses).contains s = _
        rw [List.contains_cons]
        simp [hs]
    · exact hrow
    · exact hcol
    · rw [hsize]
  refine ⟨{ p with
      opponentBoard := { (p.opponentBoard.addGuess (coordStr row col)) with
        grid := setCell (p.opponentBoard.addGuess (coordStr row col)).grid row col 'X' },
      lastHit := some (coordStr row col),
      mode := Mode.target,
      targetQueue := huntHitQueue p.opponentBoard row col }, ?_, rfl, rfl⟩
  unfold CPUState.processGuessResult
  rw [hparse]
  exact hadj.trans (by rw [hhq])

/-- C4 witness: at the corner cell "00" of a fresh CPU player, a
hit-not-sunk result switches to target mode and queues exactly the two
in-bounds neighbors, down "10" then right "01". -/
theorem processGuessResult_hunt_hit_witness :
    CPUState.init.mode = Mode.hunt ∧ CPUState.init.targetQueue = [] ∧
    CPUState.init.opponentBoard.size = 10 ∧ (0 : Nat) < 10 ∧
    huntHitQueue CPUState.init.opponentBoard 0 0 = ["10", "01"] ∧
    ∃ p2, CPUState.init.processGuessResult (coordStr 0 0)
        { hit := true, sunk := false, alreadyGuessed := false } = some p2 ∧
      p2.mode = Mode.target ∧
      p2.targetQueue = huntHitQueue CPUState.init.opponentBoard 0 0 :=
  ⟨rfl, rfl, rfl, by decide, by decide,
    processGuessResult_hunt_hit CPUState.init 0 0 false rfl rfl rfl
      (by decide) (by decide)⟩

theorem huntLoop_spec (guessed : String → Bool) (draws : Nat → Nat × Nat) :
    ∀ (fuel i : Nat), 99 ≤ i + fuel →
      (∃ j, (huntLoop guessed draws i fuel).1 =
        coordStr (draws j).1 (draws j).2) ∧
      (guessed (huntLoop guessed draws i fuel).1 = false ∨
        100 ≤ (huntLoop guessed draws i fuel).2) := by
  intro fuel
  induction fuel with
  | zero =>
    intro i hi
    refine ⟨⟨i, rfl⟩, Or.inr ?_⟩
    show 100 ≤ i + 1
    omega
  | succ fuel ih =>
    intro i hi
    by_cases hcond : guessed (coordStr (draws i).1 (draws i).2) = true ∧ i + 1 < 100
    · unfold huntLoop
      rw [if_pos hcond]
      exact ih (i + 1) (by omega)
    · unfold huntLoop
      rw [if_neg hcond]
      refine ⟨⟨i, rfl⟩, ?_⟩
      rw [not_and_or] at hcond
      rcases hcond with h | h
      · exact Or.inl (Bool.eq_false_iff.mpr h)
      · exact Or.inr (by show 100 ≤ i + 1; omega)

/-- Unguessed-coordinate guarantee shared by the hunt-guess claims: with
in-range draws and at least one unguessed coordinate, the hunt guess is
never a repeat — either the random loop exits on an unguessed draw, or
the exhausted loop falls back to the row-major scan, which finds the
unguessed coordinate. -/
theorem generateHuntGuess_unguessed (b : Board) (draws : Nat → Nat × Nat)
    (hdr : ∀ i, (draws i).1 < 10 ∧ (draws i).2 < 10)
    (hex : ∃ row col, row < 10 ∧ col < 10 ∧
      b.hasBeenGuessed (coordStr row col) = false) :
    b.hasBeenGuessed (generateHuntGuess b draws) = false := by
  unfold generateHuntGuess
  obtain ⟨⟨j, hj⟩, hres⟩ :=
    huntLoop_spec (fun s => b.hasBeenGuessed s) draws 100 0 (by omega)
  cases hL : huntLoop (fun s => b.hasBeenGuessed s) draws 0 100 with
  | mk c0 att =>
    rw [hL] at hj hres
    simp only [] at hj hres ⊢
    by_cases hatt : att ≥ 100
    · rw [if_pos hatt]
      cases hfind : allCoords.find? (fun s => !(b.hasBeenGuessed s)) with
      | some coord =>
        have hp := List.find?_some hfind
        simpa using hp
      | none =>
        exfalso
        obtain ⟨row, col, hr, hc, hun⟩ := hex
        have hmem : coordStr row col ∈ allCoords := by
          unfold allCoords
          rw [List.mem_flatMap]
          refine ⟨row, by simp [hr], ?_⟩
          rw [List.mem_map]
          exact ⟨col, by simp [hc], rfl⟩
        have := List.find?_eq_none.mp hfind _ hmem
        simp [hun] at this
    · rw [if_neg hatt]
      rcases hres with h | h
      · exact h
      · exact absurd h (by omega)

/-- Tracking board of the end-to-end scenario: every coordinate of the
10 by 10 board guessed except "09". -/
def exhaustedBoard : Board :=
  { size := 10, grid := createGrid 10, ships := [],
    guesses := allCoords.filter (fun s => !(s == "09")) }

/-- On the board exhausted except for "09", every in-range draw is
already guessed unless it is "09" itself, so the hunt guess — through
the loop or through the fallback scan — is "09". -/
theorem generateHuntGuess_exhausted (draws : Nat → Nat × Nat)
    (hdr : ∀ i, (draws i).1 < 10 ∧ (draws i).2 < 10) :
    generateHuntGuess exhaustedBoard draws = "09" := by
  have honly : ∀ row < 10, ∀ col < 10,
      exhaustedBoard.hasBeenGuessed (coordStr row col) = false →
      coordStr row col = "09" := by decide
  unfold generateHuntGuess
  obtain ⟨⟨j, hj⟩, hres⟩ :=
    huntLoop_spec (fun s => exhaustedBoard.hasBeenGuessed s) draws 100 0 (by omega)
  cases hL : huntLoop (fun s => exhaustedBoard.hasBeenGuessed s) draws 0 100 with
  | mk c0 att =>
    rw [hL] at hj hres
    simp only [] at hj hres ⊢
    by_cases hatt : att ≥ 100
    · rw [if_pos hatt]
      have hfind : allCoords.find? (fun s => !(exhaustedBoard.hasBeenGuessed s)) =
          some "09" := by decide
      rw [hfind]
    · rw [if_neg hatt]
      rcases hres with h | h
      · have hdj := hdr j
        rw [hj] at h ⊢
        exact honly _ hdj.1 _ hdj.2 h
      · exact absurd h (by omega)

/-- C6: whenever the tracking board still has an unguessed in-bounds
coordinate, generateHuntGuess — whose random loop is bounded at 100
attempts and whose fallback is a deterministic row-major scan — returns
an unguessed coordinate, for every outcome of the in-range random
draws; and on the board fully exhausted except "09" it returns exactly
"09". -/
theorem generateHuntGuess_total (b : Board) (draws : Nat → Nat × Nat)
    (hdr : ∀ i, (draws i).1 < 10 ∧ (draws i).2 < 10)
    (hex : ∃ row col, row < 10 ∧ col < 10 ∧
      b.hasBeenGuessed (coordStr row col) = false) :
    b.hasBeenGuessed (generateHuntGuess b draws) = false ∧
    (∀ draws2 : Nat → Nat × Nat,
      (∀ i, (draws2 i).1 < 10 ∧ (draws2 i).2 < 10) →
      generateHuntGuess exhaustedBoard draws2 = "09") :=
  ⟨generateHuntGuess_unguessed b draws hdr hex,
    fun draws2 hdr2 => generateHuntGuess_exhausted draws2 hdr2⟩

/-- Constant draw stream for the concrete hunt-guess runs. -/
def exHuntDraws : Nat → Nat × Nat := fun _ => (0, 0)

/-- C6 witness: on a fresh board with the constant draw stream at "00",
the hunt guess is unguessed, and the exhausted-but-"09" board yields
"09". -/
theorem generateHuntGuess_total_witness :
    (∀ i, (exHuntDraws i).1 < 10 ∧ (exHuntDraws i).2 < 10) ∧
    (∃ row col, row < 10 ∧ col < 10 ∧
      (Board.init 10).hasBeenGuessed (coordStr row col) = false) ∧
    ((Board.init 10).hasBeenGuessed
        (generateHuntGuess (Board.init 10) exHuntDraws) = false ∧
      (∀ draws2 : Nat → Nat × Nat,
        (∀ i, (draws2 i).1 < 10 ∧ (draws2 i).2 < 10) →
        generateHuntGuess exhaustedBoard draws2 = "09")) :=
  have hdr : ∀ i, (exHuntDraws i).1 < 10 ∧ (exHuntDraws i).2 < 10 :=
    fun _ => show (0 : Nat) < 10 ∧ (0 : Nat) < 10 by decide
  have hex : ∃ row col, row < 10 ∧ col < 10 ∧
      (Board.init 10).hasBeenGuessed (coordStr row col) = false :=
    ⟨0, 0, by decide, by decide, by decide⟩
  ⟨hdr, hex, generateHuntGuess_total (Board.init 10) exHuntDraws hdr hex⟩

/-- C10: whatever the AI's mode and queue contents, as long as the
tracking board has an unguessed in-bounds coordinate, the generated
guess — from the queue or from hunt generation — is never a coordinate
already in the tracking board's guessed-set, for every outcome of the
in-range random draws. -/
theorem generateGuess_unguessed (p : CPUState) (draws : Nat → Nat × Nat)
    (hdr : ∀ i, (draws i).1 < 10 ∧ (draws i).2 < 10)
    (hex : ∃ row col, row < 10 ∧ col < 10 ∧
      p.opponentBoard.hasBeenGuessed (coordStr row col) = false) :
    p.opponentBoard.hasBeenGuessed (p.generateGuess draws).1 = false := by
  unfold CPUState.generateGuess
  cases hm : p.mode with
  | hunt =>
    simp only []
    exact generateHuntGuess_unguessed p.opponentBoard draws hdr hex
  | target =>
    cases hq : p.targetQueue with
    | nil =>
      simp only []
      exact generateHuntGuess_unguessed p.opponentBoard draws hdr hex
    | cons q rest =>
      cases hs : shiftLoop (fun s => p.opponentBoard.hasBeenGuessed s) q rest with
      | mk coordinate queue2 =>
        simp only []
        rw [hs]
        simp only []
        by_cases hg : p.opponentBoard.hasBeenGuessed coordinate = true
        · rw [if_pos hg]
          exact generateHuntGuess_unguessed p.opponentBoard draws hdr hex
        · rw [if_neg hg]
          exact Bool.eq_false_iff.mpr hg

/-- Concrete target-mode state for the guess-generation scenario: one
queued unguessed coordinate "55" over a fresh tracking board. -/
def targetScenarioState : CPUState :=
  { CPUState.init with
    mode := Mode.target,
    targetQueue := ["55"] }

/-- C10 witness: the target-mode state with queued "55" over a fresh
tracking board generates an unguessed coordinate. -/
theorem generateGuess_unguessed_witness :
    (∀ i, (exHuntDraws i).1 < 10 ∧ (exHuntDraws i).2 < 10) ∧
    (∃ row col, row < 10 ∧ col < 10 ∧
      targetScenarioState.opponentBoard.hasBeenGuessed
        (coordStr row col) = false) ∧
    targetScenarioState.opponentBoard.hasBeenGuessed
      (targetScenarioState.generateGuess exHuntDraws).1 = false :=
  have hdr : ∀ i, (exHuntDraws i).1 < 10 ∧ (exHuntDraws i).2 < 10 :=
    fun _ => show (0 : Nat) < 10 ∧ (0 : Nat) < 10 by decide
  have hex : ∃ row col, row < 10 ∧ col < 10 ∧
      targetScenarioState.opponentBoard.hasBeenGuessed
        (coordStr row col) = false :=
    ⟨0, 0, by decide, by decide, by decide⟩
  ⟨hdr, hex, generateGuess_unguessed targetScenarioState exHuntDraws hdr hex⟩

end SeaBattle
